import Mathlib

/-!
# Charleston concierge — verification of the entity-resolution / ingestion core

Shallow embedding of the repository's ingestion pipeline:

* `src/utils/event_importer.py` — `EventImporter.load_existing_data`,
  `EventImporter.import_events_from_scraper`, `EventImporter._find_matching_business`
* `src/utils/create_venue_connections.py` — `create_venue_connections` (per-event
  matching loop)
* `src/data_collection/sources/holycitysinner.py` — `HolyCitySinnerScraper.get_all_events`
  (far-future filter), `_extract_events_from_text` (date resolution with year rollover),
  `scrape_event` (description date extraction and the name-and-date gate)

Python strings are modelled by `String` (a structure over `List Char`); `None` by
`Option.none`.  Python truthiness on strings (`if s:`) is "non-None and non-empty";
on optional ints (`if not business_id:`) it is "None or zero", and both are embedded
literally.  Python `dict`s appear as association lists with CPython's semantics:
insertion keeps the position of the first write and updates its value in place.
-/

namespace Charleston

/-! ## Basic string helpers (Python `str.lower`, `in`, `re.split(r'\W+')`, …) -/

/-- Python `s.lower()` (ASCII data; `Char.toLower` agrees on it). -/
def lowerS (s : String) : String := ⟨s.data.map Char.toLower⟩

/-- A regex `\w` character: alphanumeric or underscore (ASCII data). -/
def isWordChar (c : Char) : Bool := c.isAlphanum || c == '_'

/-- A regex `\s` character (ASCII whitespace set used by Python `re`). -/
def isSpaceChar (c : Char) : Bool :=
  c == ' ' || c == '\t' || c == '\n' || c == '\r' || c == '\x0b' || c == '\x0c'

/-- Worker for `re.split(r'\W+', text)`: splits on maximal runs of
non-word characters, keeping the (possibly empty) fragments between them.
`acc` is the token being accumulated (reversed); `inSep = true` while inside
a separator run whose preceding token was already emitted. -/
def splitNonWordAux : List Char → List Char → Bool → List (List Char)
  | [], acc, _ => [acc.reverse]
  | c :: cs, acc, inSep =>
    if isWordChar c then splitNonWordAux cs (c :: acc) false
    else if inSep then splitNonWordAux cs acc true
    else acc.reverse :: splitNonWordAux cs [] true

/-- Python `re.split(r'\W+', s)`. -/
def splitNonWord (s : String) : List String :=
  (splitNonWordAux s.data [] false).map String.mk

/-- `isPrefixOfCh sub l`: does `l` start with `sub`? -/
def isPrefixOfCh : List Char → List Char → Bool
  | [], _ => true
  | _ :: _, [] => false
  | a :: as, b :: bs => a == b && isPrefixOfCh as bs

/-- `containsSub sub l`: does `sub` occur contiguously inside `l`? -/
def containsSub (sub : List Char) : List Char → Bool
  | [] => sub.isEmpty
  | c :: cs => isPrefixOfCh sub (c :: cs) || containsSub sub cs

/-- Python `sub in s` (substring containment). -/
def strContains (s sub : String) : Bool := containsSub sub.data s.data

/-- Python truthiness of an optional string: non-`None` and non-empty. -/
def strTruthy : Option String → Bool
  | none => false
  | some s => !s.data.isEmpty

/-- Python falsiness of an optional int (`if not business_id:`):
`None` and `0` are both falsy. -/
def pyFalsy : Option Int → Bool
  | none => true
  | some i => i == 0

/-- `event.get('X') if event.get('X') else None` — collapses the empty
string to `None` (src/utils/event_importer.py lines 138-148). -/
def pyStr : Option String → Option String
  | none => none
  | some s => if s.data.isEmpty then none else some s

/-! ## Association lists with CPython `dict` semantics -/

/-- First-match lookup (CPython dicts built by `dictInsert`/`dictAppend`
have unique keys, so this is dict indexing). -/
def lookupD {α : Type} (k : String) : List (String × α) → Option α
  | [] => none
  | (k', v) :: rest => if k' = k then some v else lookupD k rest

/-- `d[k] = v` on a CPython dict: overwrite in place, else append. -/
def dictInsert {α : Type} (k : String) (v : α) : List (String × α) → List (String × α)
  | [] => [(k, v)]
  | (k', v') :: rest =>
    if k' = k then (k', v) :: rest else (k', v') :: dictInsert k v rest

/-- `d.setdefault(k, []).append(v)` pattern used for the keyword index
(src/utils/event_importer.py lines 87-89). -/
def dictAppend (k : String) (v : Int) : List (String × List Int) → List (String × List Int)
  | [] => [(k, [v])]
  | (k', vs) :: rest =>
    if k' = k then (k', vs ++ [v]) :: rest else (k', vs) :: dictAppend k v rest

/-! ## Venue catalog and the three lookup structures
(`EventImporter.load_existing_data`, src/utils/event_importer.py lines 61-94) -/

/-- A row of the `businesses` table: `SELECT id, name, location FROM businesses`. -/
structure Business where
  id : Int
  name : Option String
  location : Option String
deriving DecidableEq, Repr

/-- `self.business_by_name = {name.lower(): business_id for business_id, name, _
in self.businesses if name}` (line 78). -/
def buildByName (bs : List Business) : List (String × Int) :=
  bs.foldl
    (fun acc b =>
      match b.name with
      | some n => if n.data.isEmpty then acc else dictInsert (lowerS n) b.id acc
      | none => acc)
    []

/-- `self.business_by_location = {location.lower(): business_id for business_id, _,
location in self.businesses if location}` (line 79). -/
def buildByLocation (bs : List Business) : List (String × Int) :=
  bs.foldl
    (fun acc b =>
      match b.location with
      | some l => if l.data.isEmpty then acc else dictInsert (lowerS l) b.id acc
      | none => acc)
    []

/-- The keyword inverted index (lines 82-89): for each business with a truthy
name, every lowercased token of length > 3 maps to the list of business ids. -/
def buildKeywords (bs : List Business) : List (String × List Int) :=
  bs.foldl
    (fun acc b =>
      match b.name with
      | some n =>
        if n.data.isEmpty then acc
        else
          ((splitNonWord (lowerS n)).filter (fun w => 3 < w.data.length)).foldl
            (fun a w => dictAppend w b.id a) acc
      | none => acc)
    []

/-- The three lookup structures cached by `load_existing_data`. -/
structure BizIndex where
  byName : List (String × Int)
  byLocation : List (String × Int)
  keywords : List (String × List Int)

/-- Build the full index from the catalog. -/
def buildIndex (bs : List Business) : BizIndex :=
  ⟨buildByName bs, buildByLocation bs, buildKeywords bs⟩

/-! ## `EventImporter._find_matching_business`
(src/utils/event_importer.py lines 354-413) -/

/-- Method 4 accumulator update: `potential_matches[b_id] =
potential_matches.get(b_id, 0) + pts` (lines 397, 405). -/
def addPoints (b : Int) (pts : Nat) : List (Int × Nat) → List (Int × Nat)
  | [] => [(b, pts)]
  | (b', q) :: rest =>
    if b' = b then (b', q + pts) :: rest else (b', q) :: addPoints b pts rest

/-- Award `pts` points to every id in `ids` (the inner
`for b_id in self.business_keywords[word]` loops). -/
def tallyIds (pts : Nat) (ids : List Int) (acc : List (Int × Nat)) : List (Int × Nat) :=
  ids.foldl (fun a b => addPoints b pts a) acc

/-- Process a token list: each token found in the keyword index awards `pts`
points to every business id listed under it (lines 393-397 and 401-405). -/
def tallyTokens (kw : List (String × List Int)) (pts : Nat) (tokens : List String)
    (acc : List (Int × Nat)) : List (Int × Nat) :=
  tokens.foldl
    (fun a t =>
      match lookupD t kw with
      | some ids => tallyIds pts ids a
      | none => a)
    acc

/-- Tokens of the event location used by Method 4 (guarded by
`if event_location:`, line 392). -/
def locTokens : Option String → List String
  | some l => if l.data.isEmpty then [] else splitNonWord (lowerS l)
  | none => []

/-- Tokens of the event name used by Method 4 (guarded by
`if event_name:`, line 400). -/
def nameTokens : Option String → List String
  | some n => if n.data.isEmpty then [] else splitNonWord (lowerS n)
  | none => []

/-- The Method 4 `potential_matches` dict: +2 per location token hit, then
+1 per name token hit (lines 389-405). -/
def potentialMatches (kw : List (String × List Int)) (loc name : Option String) :
    List (Int × Nat) :=
  tallyTokens kw 1 (nameTokens name) (tallyTokens kw 2 (locTokens loc) [])

/-- `max(potential_matches.items(), key=lambda x: x[1])` — first maximal
entry in insertion order (line 409). -/
def maxBySnd : List (Int × Nat) → Option (Int × Nat)
  | [] => none
  | x :: xs => some (xs.foldl (fun best y => if y.2 > best.2 then y else best) x)

/-- Method 4 in full: the best keyword total wins only if it is ≥ 2
(lines 408-411). -/
def keywordMatch (kw : List (String × List Int)) (loc name : Option String) :
    Option Int :=
  match maxBySnd (potentialMatches kw loc name) with
  | some best => if 2 ≤ best.2 then some best.1 else none
  | none => none

/-- Methods 2 and 3 share this loop shape: first dict entry whose key is a
substring of `s`, in dict iteration (= first-insertion) order (lines 374-377
and 382-385). -/
def firstNameContained (byName : List (String × Int)) (s : String) : Option Int :=
  (byName.find? (fun p => strContains s p.1)).map (·.2)

/-- `EventImporter._find_matching_business(event_name, event_location)`:
the four-method cascade, with Python's `if not business_id:` falsy guard
(`None` or `0`) between methods, embedded literally. -/
def findMatchingBusiness (idx : BizIndex) (eventName eventLocation : Option String) :
    Option Int :=
  -- Method 1: direct match on location (lines 368-369)
  let b1 : Option Int :=
    match eventLocation with
    | some l => if l.data.isEmpty then none else lookupD (lowerS l) idx.byLocation
    | none => none
  -- Method 2: location contains a business name (lines 372-377)
  let b2 : Option Int :=
    if pyFalsy b1 && strTruthy eventLocation then
      match eventLocation with
      | some l =>
        match firstNameContained idx.byName (lowerS l) with
        | some b => some b
        | none => b1
      | none => b1
    else b1
  -- Method 3: event name contains a business name (lines 380-385)
  let b3 : Option Int :=
    if pyFalsy b2 && strTruthy eventName then
      match eventName with
      | some n =>
        match firstNameContained idx.byName (lowerS n) with
        | some b => some b
        | none => b2
      | none => b2
    else b2
  -- Method 4: keyword scoring fallback (lines 387-411)
  if pyFalsy b3 then
    match keywordMatch idx.keywords eventLocation eventName with
    | some b => some b
    | none => b3
  else b3

/-! ## `EventImporter.import_events_from_scraper`
(src/utils/event_importer.py lines 96-195) -/

/-- A raw scraped record, as produced by a scraper (`event.get('Name')` & co.;
a missing key is `none`). -/
structure RawEvent where
  name : Option String
  date : Option String
  time : Option String
  location : Option String
  description : Option String
  url : Option String
  imageUrl : Option String
  source : Option String
deriving DecidableEq, Repr

/-- A tuple appended to `events_to_import` (lines 163-174), i.e. a row of the
batch `INSERT INTO events`. -/
structure Row where
  id : Int
  name : String
  date : Option String
  time : Option String
  location : Option String
  description : Option String
  url : Option String
  imageUrl : Option String
  source : String
  businessId : Option Int
deriving DecidableEq, Repr

/-- The importer's per-run statistics plus the pending batch. -/
structure ImportState where
  imported : Nat
  duplicates : Nat
  bizMatches : Nat
  rows : List Row
deriving DecidableEq, Repr

/-- Statistics are reset at the start of each run (lines 108-111, 132-133). -/
def initState : ImportState := ⟨0, 0, 0, []⟩

/-- The dedup key of a persisted row. -/
def rowKey (r : Row) : String × Option String := (r.name, r.date)

/-- One iteration of the `for event in events:` loop (lines 136-176):
clean the fields, skip if no name, skip (counting a duplicate) if `(name, date)`
is in `self.existing_events`, otherwise match a business and append the row with
id `next_id + self.imported_count`.  Note that `self.existing_events` is never
updated inside the loop. -/
def processOne (idx : BizIndex) (scraperName : String)
    (existing : List (String × Option String)) (nextId : Int)
    (st : ImportState) (ev : RawEvent) : ImportState :=
  match pyStr ev.name with
  | none => st
  | some name =>
    let date := pyStr ev.date
    if (name, date) ∈ existing then
      { st with duplicates := st.duplicates + 1 }
    else
      let bid := findMatchingBusiness idx (some name) (pyStr ev.location)
      { imported := st.imported + 1
        duplicates := st.duplicates
        bizMatches := st.bizMatches + (if bid.isSome then 1 else 0)
        rows := st.rows ++ [{
          id := nextId + (st.imported : Int)
          name := name
          date := date
          time := pyStr ev.time
          location := pyStr ev.location
          description := pyStr ev.description
          url := pyStr ev.url
          imageUrl := pyStr ev.imageUrl
          source := (pyStr ev.source).getD scraperName
          businessId := bid }] }

/-- The whole import loop of `import_events_from_scraper`, given the state
loaded before it: the venue index, the `(name, date)` dedup set and the
`next_id` derived from `SELECT MAX(id) FROM events`. -/
def importRun (idx : BizIndex) (scraperName : String)
    (existing : List (String × Option String)) (nextId : Int)
    (events : List RawEvent) : ImportState :=
  events.foldl (processOne idx scraperName existing nextId) initState

/-- `SELECT MAX(id) FROM events` over the pre-existing ids. -/
def maxIdOf : List Int → Option Int
  | [] => none
  | x :: xs => some (xs.foldl (fun a b => if a < b then b else a) x)

/-- `next_id = (result[0] + 1) if result[0] is not None else 0`
(lines 128-130). -/
def nextIdFrom (preIds : List Int) : Int :=
  match maxIdOf preIds with
  | some m => m + 1
  | none => 0

/-! ## `create_venue_connections` per-event matching
(src/utils/create_venue_connections.py lines 50-105) -/

/-- `re.sub(r'[^\w\s]', '', s).lower()` (lines 41, 59, 81, 91). -/
def cleanS (s : String) : String :=
  ⟨(s.data.filter (fun c => isWordChar c || isSpaceChar c)).map Char.toLower⟩

/-- The three fuzzy strategies of `create_venue_connections`
(`Business_Match_Type` values, lines 74, 86, 98). -/
inductive MatchType where
  | locationToName
  | locationToLocation
  | nameToName
deriving DecidableEq, Repr

/-- The loop-carried variables `best_match`, `best_score`, `match_type`,
`match_index` (lines 62-65; `match_index = -1` is modelled as `none`). -/
structure VCState where
  bestMatch : Option String
  bestScore : Nat
  matchType : Option MatchType
  matchIndex : Option Nat
deriving DecidableEq, Repr

/-- Initial loop state per event (lines 62-65). -/
def vcInit : VCState := ⟨none, 0, none, none⟩

/-- Eligibility of a cleaned business name:
`if business_name and len(business_name) > 3:` (lines 69, 93). -/
def nameEligible (c : String) : Bool := !c.data.isEmpty && 3 < c.data.length

/-- One step of the location-to-name loop (lines 68-75).  `fuzzScore` stands
for `fuzz.partial_ratio`; `j` is the enumeration index, `orig` the uncleaned
business name. -/
def vcStep1 (fuzzScore : String → String → Nat) (cl : String) (j : Nat)
    (orig : String) (st : VCState) : VCState :=
  if nameEligible (cleanS orig) then
    if 80 < fuzzScore cl (cleanS orig) && st.bestScore < fuzzScore cl (cleanS orig) then
      ⟨some orig, fuzzScore cl (cleanS orig), some .locationToName, some j⟩
    else st
  else st

/-- The location-to-name loop over the enumerated business names. -/
def vcLoop1 (fuzzScore : String → String → Nat) (cl : String) :
    Nat → List String → VCState → VCState
  | _, [], st => st
  | j, n :: rest, st => vcLoop1 fuzzScore cl (j + 1) rest (vcStep1 fuzzScore cl j n st)

/-- One step of the location-to-location loop (lines 79-87); `bloc = none`
models a NaN location, skipped by `if business_loc and not pd.isna(...)`. -/
def vcStep2 (fuzzScore : String → String → Nat) (cl : String) (j : Nat)
    (origName : String) (bloc : Option String) (st : VCState) : VCState :=
  match bloc with
  | some bl =>
    if bl.data.isEmpty then st
    else
      if 80 < fuzzScore cl (cleanS bl) && st.bestScore < fuzzScore cl (cleanS bl) then
        ⟨some origName, fuzzScore cl (cleanS bl), some .locationToLocation, some j⟩
      else st
  | none => st

/-- The location-to-location loop over zipped (name, location) rows. -/
def vcLoop2 (fuzzScore : String → String → Nat) (cl : String) :
    Nat → List (String × Option String) → VCState → VCState
  | _, [], st => st
  | j, (n, l) :: rest, st =>
    vcLoop2 fuzzScore cl (j + 1) rest (vcStep2 fuzzScore cl j n l st)

/-- One step of the name-to-name loop (lines 92-99), threshold 85. -/
def vcStep3 (fuzzScore : String → String → Nat) (cn : String) (j : Nat)
    (orig : String) (st : VCState) : VCState :=
  if nameEligible (cleanS orig) then
    if 85 < fuzzScore cn (cleanS orig) && st.bestScore < fuzzScore cn (cleanS orig) then
      ⟨some orig, fuzzScore cn (cleanS orig), some .nameToName, some j⟩
    else st
  else st

/-- The name-to-name loop over the enumerated business names. -/
def vcLoop3 (fuzzScore : String → String → Nat) (cn : String) :
    Nat → List String → VCState → VCState
  | _, [], st => st
  | j, n :: rest, st => vcLoop3 fuzzScore cn (j + 1) rest (vcStep3 fuzzScore cn j n st)

/-- The full per-event body of `create_venue_connections` (lines 50-105):
skip the event when its location is empty; otherwise run the strict cascade,
entering a later loop only when `best_match` is still falsy, and record
`(match_index, match_type, best_score)` when `best_match` is truthy.
`fuzzScore` abstracts `thefuzz.fuzz.partial_ratio` (library code outside this
repository); every property proved below holds for the real scorer. -/
def processEvent (fuzzScore : String → String → Nat) (names : List String)
    (locs : List (Option String)) (location eventName : String) :
    Option (Nat × MatchType × Nat) :=
  if location.data.isEmpty then none
  else
    let cl := cleanS location
    let st1 := vcLoop1 fuzzScore cl 0 names vcInit
    let st2 := if strTruthy st1.bestMatch then st1
               else vcLoop2 fuzzScore cl 0 (names.zip locs) st1
    let st3 := if strTruthy st2.bestMatch then st2
               else vcLoop3 fuzzScore (cleanS eventName) 0 names st2
    match st3.bestMatch, st3.matchType, st3.matchIndex with
    | some bm, some mt, some j =>
      if bm.data.isEmpty then none else some (j, mt, st3.bestScore)
    | _, _, _ => none

/-! ## Calendar dates (Python `datetime.date` ordinals)
used by `holycitysinner.py` -/

/-- A calendar date.  The scraper stores dates as zero-padded `YYYY-MM-DD`
strings, whose lexicographic order on valid dates coincides with calendar
order; we model the date value itself. -/
structure Date where
  year : Nat
  month : Nat
  day : Nat
deriving DecidableEq, Repr

/-- Gregorian leap year, as in Python `calendar.isleap`. -/
def isLeap (y : Nat) : Bool := y % 4 == 0 && (y % 100 != 0 || y % 400 == 0)

/-- Days in a month. -/
def daysInMonth (y m : Nat) : Nat :=
  if m == 2 then (if isLeap y then 29 else 28)
  else if m == 4 || m == 6 || m == 9 || m == 11 then 30
  else 31

/-- Validity as checked by `datetime.strptime` / the `datetime` constructor. -/
def validDate (d : Date) : Bool :=
  1 ≤ d.month && d.month ≤ 12 && 1 ≤ d.day && d.day ≤ daysInMonth d.year d.month && 1 ≤ d.year

/-- Days in the months strictly before `m` of year `y`. -/
def daysBeforeMonth (y m : Nat) : Nat :=
  (List.range (m - 1)).foldl (fun a i => a + daysInMonth y (i + 1)) 0

/-- Days strictly before January 1 of year `y`
(`date.toordinal`: `365*n + n//4 - n//100 + n//400` with `n = y - 1`). -/
def daysBeforeYear (y : Nat) : Nat :=
  365 * (y - 1) + (y - 1) / 4 - (y - 1) / 100 + (y - 1) / 400

/-- Python `date.toordinal()`: day count with `0001-01-01 = 1`.
`datetime` subtraction `(a - b).days` is `toOrdinal a - toOrdinal b`. -/
def toOrdinal (d : Date) : Nat :=
  daysBeforeYear d.year + daysBeforeMonth d.year d.month + d.day

/-- Full month name → month number (`strptime` with `%B`); only the
capitalized names matched by the scraper's regex can occur. -/
def monthNumFull (m : String) : Option Nat :=
  if m == "January" then some 1 else if m == "February" then some 2
  else if m == "March" then some 3 else if m == "April" then some 4
  else if m == "May" then some 5 else if m == "June" then some 6
  else if m == "July" then some 7 else if m == "August" then some 8
  else if m == "September" then some 9 else if m == "October" then some 10
  else if m == "November" then some 11 else if m == "December" then some 12
  else none

/-- Abbreviated month name → month number (`strptime(month[:3], '%b')`). -/
def monthAbbr (m : String) : Option Nat :=
  if m == "Jan" then some 1 else if m == "Feb" then some 2
  else if m == "Mar" then some 3 else if m == "Apr" then some 4
  else if m == "May" then some 5 else if m == "Jun" then some 6
  else if m == "Jul" then some 7 else if m == "Aug" then some 8
  else if m == "Sep" then some 9 else if m == "Oct" then some 10
  else if m == "Nov" then some 11 else if m == "Dec" then some 12
  else none

/-- Python `month[:3]`. -/
def take3 (s : String) : String := ⟨s.data.take 3⟩

/-! ## `HolyCitySinnerScraper._extract_events_from_text` — date resolution
(src/data_collection/sources/holycitysinner.py lines 290-310) -/

/-- Resolve one regex match `(month, day, year?)` of the text extractor:
default a missing year to the current year (line 299), parse (failures skip
the match, lines 308-310), and if the date is more than 180 days in the past
roll the year forward (lines 303-305).  `date_obj.replace(year=...)` raises
for Feb 29 of a leap year, caught by the outer handler (line 353), hence
`none` when the rolled date is invalid. -/
def resolveTextDate (now : Date) (month : String) (day : Nat) (year? : Option Nat) :
    Option Date :=
  let year := year?.getD now.year
  match monthNumFull month with
  | none => none
  | some m =>
    if validDate ⟨year, m, day⟩ then
      if 180 < toOrdinal now - toOrdinal ⟨year, m, day⟩ then
        if validDate ⟨year + 1, m, day⟩ then some ⟨year + 1, m, day⟩ else none
      else some ⟨year, m, day⟩
    else none

/-! ## `HolyCitySinnerScraper.scrape_event` — description date extraction
and the final gate (lines 470-512, 558-563) -/

/-- The month-name branch of `scrape_event`'s date extraction (lines 491-496):
`year = year or current_year`, `month_num = strptime(month[:3], '%b').month`,
`date_text = f"{year}-{month_num:02d}-{day:02d}"` — no 180-day rollover and no
calendar validation. -/
def scrapeDescDate (now : Date) (month : String) (day : Nat) (year? : Option Nat) :
    Option Date :=
  let year := year?.getD now.year
  (monthAbbr (take3 month)).map (fun m => ⟨year, m, day⟩)

/-- An event as seen by `get_all_events`' final filter: a name and the
resolved `Date` (the `event.get('Date')` field; `none` = no date). -/
structure HcsEvent where
  name : String
  date : Option Date
deriving DecidableEq, Repr

/-- `scrape_event`'s return gate (lines 558-563): `if name and date_text:
return event` — an event without a name or without an extracted date yields
`None`. -/
def scrapeEventGate (name : String) (date : Option Date) : Option HcsEvent :=
  if !name.data.isEmpty && date.isSome then some ⟨name, date⟩ else none

/-- `get_all_events`' far-future filter (lines 76-77, 115-123): keep an event
iff its date is present and `event_date <= max_date_threshold`, where
`max_date_threshold = today + timedelta(days=365)`.  The code compares the
zero-padded ISO strings, which on valid dates is exactly the ordinal
comparison used here. -/
def filterSuspicious (today : Date) (evs : List HcsEvent) : List HcsEvent :=
  evs.filter (fun e =>
    match e.date with
    | some d => toOrdinal d ≤ toOrdinal today + 365
    | none => false)

/-! ## Counting predicates for the import loop -/

/-- A record's name after cleaning is non-null (it is not dropped by the
`if not name: continue` guard). -/
def namedEv (ev : RawEvent) : Bool := (pyStr ev.name).isSome

/-- The record is counted as a duplicate: named and its `(name, date)` pair
is in the pre-loaded `existing_events` set. -/
def isDupEv (existing : List (String × Option String)) (ev : RawEvent) : Bool :=
  match pyStr ev.name with
  | some n => decide ((n, pyStr ev.date) ∈ existing)
  | none => false

/-- The record is admitted: named and its pair is not in the pre-loaded set. -/
def isAdmEv (existing : List (String × Option String)) (ev : RawEvent) : Bool :=
  match pyStr ev.name with
  | some n => !decide ((n, pyStr ev.date) ∈ existing)
  | none => false

/-- The dedup key a record would be persisted under. -/
def evKey (ev : RawEvent) : String × Option String :=
  ((pyStr ev.name).getD "", pyStr ev.date)

/-- The duplicated sample batch record of the spec scenario:
`{name:"Food Truck Friday", date:"2024-06-07"}`. -/
def ftfEvent : RawEvent :=
  ⟨some "Food Truck Friday", some "2024-06-07", none, none, none, none, none, none⟩

/-- The two-venue catalog exposing the truthiness slip: the repository's own
database builder (`create_sql_database.py` line 131) assigns business ids from
the DataFrame index, which starts at 0. -/
def truthyBugCatalog : List Business :=
  [⟨0, some "Pub", some "123 Main St"⟩, ⟨1, some "Main", some "9 King St"⟩]

/-- The point total a venue holds in a Method 4 accumulator
(`potential_matches.get(b_id, 0)`: first entry with that key, else 0). -/
def lookupPts (b : Int) : List (Int × Nat) → Nat
  | [] => 0
  | (c, q) :: rest => if c = b then q else lookupPts b rest

/-- How many (token, index-entry) hits venue `b` receives from a token list:
for each token, the number of occurrences of `b` under that token in the
keyword index. -/
def hitCount (kw : List (String × List Int)) (b : Int) (tokens : List String) : Nat :=
  (tokens.map (fun t => ((lookupD t kw).getD []).count b)).sum

/-- A scorer giving 100 exactly when the first argument is the cleaned event
name "Live Jazz Night" — isolates the name-to-name strategy. -/
def jazzScorer : String → String → Nat :=
  fun a _ => if a = cleanS "Live Jazz Night" then 100 else 0

/-- Cascade invariant: every recorded match carries its own strategy's score
for the recorded candidate, strictly above that strategy's threshold. -/
def vcInv (fuzzScore : String → String → Nat) (cl cn : String)
    (names : List String) (rows : List (String × Option String))
    (st : VCState) : Prop :=
  (st.matchType = some .locationToName →
    80 < st.bestScore ∧ ∃ j n, st.matchIndex = some j ∧ names.get? j = some n
      ∧ st.bestMatch = some n ∧ nameEligible (cleanS n) = true
      ∧ st.bestScore = fuzzScore cl (cleanS n))
  ∧ (st.matchType = some .locationToLocation →
    80 < st.bestScore ∧ ∃ j n l, st.matchIndex = some j ∧ rows.get? j = some (n, some l)
      ∧ st.bestMatch = some n ∧ st.bestScore = fuzzScore cl (cleanS l))
  ∧ (st.matchType = some .nameToName →
    85 < st.bestScore ∧ ∃ j n, st.matchIndex = some j ∧ names.get? j = some n
      ∧ st.bestMatch = some n ∧ nameEligible (cleanS n) = true
      ∧ st.bestScore = fuzzScore cn (cleanS n))

/-- A constant scorer, for exercising the thresholds at the boundary. -/
def constScore (v : Nat) : String → String → Nat := fun _ _ => v

/-! ## Proof development -/

/-- Master accounting lemma for the import loop: duplicates and imported are
counted against the fixed pre-run `existing` set only, and the batch rows
carry exactly the keys of the admitted records, in order. -/
theorem foldl_processOne_spec (idx : BizIndex) (sn : String)
    (existing : List (String × Option String)) (nextId : Int) :
    ∀ (evs : List RawEvent) (st : ImportState),
      ((evs.foldl (processOne idx sn existing nextId) st).duplicates
          = st.duplicates + evs.countP (isDupEv existing))
      ∧ ((evs.foldl (processOne idx sn existing nextId) st).imported
          = st.imported + evs.countP (isAdmEv existing))
      ∧ ((evs.foldl (processOne idx sn existing nextId) st).rows.map rowKey
          = st.rows.map rowKey ++ ((evs.filter (isAdmEv existing)).map evKey))
  | [], st => by simp
  | ev :: evs, st => by
    have ih := foldl_processOne_spec idx sn existing nextId evs
    simp only [List.foldl_cons, List.countP_cons, List.filter_cons]
    cases h : pyStr ev.name with
    | none =>
      have hd : isDupEv existing ev = false := by simp [isDupEv, h]
      have ha : isAdmEv existing ev = false := by simp [isAdmEv, h]
      have hp : processOne idx sn existing nextId st ev = st := by
        simp [processOne, h]
      rw [hp, hd, ha]
      simpa using ih st
    | some n =>
      by_cases hm : (n, pyStr ev.date) ∈ existing
      · have hd : isDupEv existing ev = true := by simp [isDupEv, h, hm]
        have ha : isAdmEv existing ev = false := by simp [isAdmEv, h, hm]
        have hp : processOne idx sn existing nextId st ev
            = { st with duplicates := st.duplicates + 1 } := by
          simp [processOne, h, hm]
        rw [hp, hd, ha]
        have := ih { st with duplicates := st.duplicates + 1 }
        refine ⟨?_, ?_, ?_⟩
        · rw [this.1]; simp; omega
        · rw [this.2.1]; simp
        · rw [this.2.2]; simp
      · have hd : isDupEv existing ev = false := by simp [isDupEv, h, hm]
        have ha : isAdmEv existing ev = true := by simp [isAdmEv, h, hm]
        have hk : evKey ev = (n, pyStr ev.date) := by simp [evKey, h]
        set bid := findMatchingBusiness idx (some n) (pyStr ev.location) with hbid
        set row : Row := {
          id := nextId + (st.imported : Int)
          name := n
          date := pyStr ev.date
          time := pyStr ev.time
          location := pyStr ev.location
          description := pyStr ev.description
          url := pyStr ev.url
          imageUrl := pyStr ev.imageUrl
          source := (pyStr ev.source).getD sn
          businessId := bid } with hrow
        have hp : processOne idx sn existing nextId st ev
            = { imported := st.imported + 1
                duplicates := st.duplicates
                bizMatches := st.bizMatches + (if bid.isSome then 1 else 0)
                rows := st.rows ++ [row] } := by
          simp only [processOne, h, hm, if_neg hm]
          rfl
        rw [hp, hd, ha]
        have := ih { imported := st.imported + 1
                     duplicates := st.duplicates
                     bizMatches := st.bizMatches + (if bid.isSome then 1 else 0)
                     rows := st.rows ++ [row] }
        have hrk : rowKey row = (n, pyStr ev.date) := by simp [rowKey, hrow]
        refine ⟨?_, ?_, ?_⟩
        · rw [this.1]; simp
        · rw [this.2.1]; simp; omega
        · rw [this.2.2]; simp [hrk, hk]

/-- Counting a disjoint disjunction of predicates splits into a sum. -/
theorem countP_or_disjoint {α : Type} (p q r : α → Bool) :
    ∀ (l : List α), (∀ x ∈ l, r x = (p x || q x)) → (∀ x ∈ l, !(p x && q x)) →
      l.countP r = l.countP p + l.countP q
  | [], _, _ => by simp
  | a :: l, hr, hd => by
    have ih := countP_or_disjoint p q r l (fun x hx => hr x (by simp [hx]))
      (fun x hx => hd x (by simp [hx]))
    have hra := hr a (by simp)
    have hda := hd a (by simp)
    simp only [List.countP_cons, ih, hra]
    cases hp : p a <;> cases hq : q a <;> simp_all <;> omega

/-- C1 counterexample: a batch of two byte-identical records against an empty
pre-run dedup set imports BOTH records (`imported = 2`) and reports no
duplicate — the loop in `import_events_from_scraper` never adds admitted
`(name, date)` pairs to `self.existing_events`. -/
theorem importRun_identical_pair_both_imported :
    (importRun (buildIndex []) "hcs" [] 0 [ftfEvent, ftfEvent]).imported = 2
    ∧ (importRun (buildIndex []) "hcs" [] 0 [ftfEvent, ftfEvent]).duplicates = 0 := by
  constructor <;> decide

/-- C1 (amended): within one ingestion run the dedup set is never updated:
a record is counted as a duplicate exactly when its `(name, date)` pair is in
the set loaded before the run, and every named record whose pair is absent
from that set is imported — so a batch with two byte-identical admissible
records increases `imported` by 2, not 1. -/
theorem importRun_dedup_uses_preloaded_set_only (idx : BizIndex) (sn : String)
    (existing : List (String × Option String)) (nextId : Int)
    (evs : List RawEvent) :
    (importRun idx sn existing nextId evs).duplicates
        = evs.countP (isDupEv existing)
    ∧ (importRun idx sn existing nextId evs).imported
        = evs.countP (isAdmEv existing) := by
  have h := foldl_processOne_spec idx sn existing nextId evs initState
  exact ⟨by simpa [initState] using h.1, by simpa [initState] using h.2.1⟩

/-- C9: re-ingesting the same record list with the dedup set seeded by the
state the first run committed (`existing` plus the keys of the rows the first
run inserted) yields `imported = 0`, and every record the first run counted
(admitted or duplicate) is reported as a duplicate. -/
theorem importRun_second_run_idempotent (idx idx2 : BizIndex) (sn sn2 : String)
    (existing : List (String × Option String)) (nextId nextId2 : Int)
    (evs : List RawEvent) :
    (importRun idx2 sn2
        (existing ++ (importRun idx sn existing nextId evs).rows.map rowKey)
        nextId2 evs).imported = 0
    ∧ (importRun idx2 sn2
        (existing ++ (importRun idx sn existing nextId evs).rows.map rowKey)
        nextId2 evs).duplicates
      = (importRun idx sn existing nextId evs).imported
        + (importRun idx sn existing nextId evs).duplicates := by
  set ex2 := existing ++ (importRun idx sn existing nextId evs).rows.map rowKey with hex2
  have hrows : (importRun idx sn existing nextId evs).rows.map rowKey
      = (evs.filter (isAdmEv existing)).map evKey := by
    have h := foldl_processOne_spec idx sn existing nextId evs initState
    simpa [importRun, initState] using h.2.2
  -- every named record of the batch has its key in the seeded set
  have hmem : ∀ ev ∈ evs, ∀ n, pyStr ev.name = some n →
      (n, pyStr ev.date) ∈ ex2 := by
    intro ev hev n hn
    by_cases hm : (n, pyStr ev.date) ∈ existing
    · exact List.mem_append.mpr (Or.inl hm)
    · refine List.mem_append.mpr (Or.inr ?_)
      rw [hrows]
      have hadm : isAdmEv existing ev = true := by simp [isAdmEv, hn, hm]
      have : ev ∈ evs.filter (isAdmEv existing) :=
        List.mem_filter.mpr ⟨hev, hadm⟩
      have hk : evKey ev = (n, pyStr ev.date) := by simp [evKey, hn]
      exact hk ▸ List.mem_map_of_mem evKey this
  have hcounts2 := importRun_dedup_uses_preloaded_set_only idx2 sn2 ex2 nextId2 evs
  have hcounts1 := importRun_dedup_uses_preloaded_set_only idx sn existing nextId evs
  constructor
  · rw [hcounts2.2, List.countP_eq_zero]
    intro ev hev
    simp only [isAdmEv]
    cases hn : pyStr ev.name with
    | none => simp
    | some n => simp [hmem ev hev n hn]
  · rw [hcounts2.1, hcounts1.1, hcounts1.2]
    have hcong : evs.countP (isDupEv ex2) = evs.countP namedEv := by
      refine List.countP_congr ?_
      intro ev hev
      simp only [isDupEv, namedEv]
      cases hn : pyStr ev.name with
      | none => simp
      | some n => simp [hmem ev hev n hn]
    rw [hcong]
    exact countP_or_disjoint _ _ _ evs
      (fun ev _ => by
        simp only [namedEv, isAdmEv, isDupEv]
        cases hn : pyStr ev.name with
        | none => simp
        | some n => by_cases hm : (n, pyStr ev.date) ∈ existing <;> simp [hm])
      (fun ev _ => by
        simp only [isAdmEv, isDupEv]
        cases hn : pyStr ev.name with
        | none => simp
        | some n => by_cases hm : (n, pyStr ev.date) ∈ existing <;> simp [hm])

/-- Id-assignment invariant of the import loop: if the accumulated batch has
`imported` rows with ids `nextId, nextId+1, …` in order, the loop keeps it
that way — each admitted record gets id `next_id + self.imported_count`. -/
theorem foldl_processOne_ids (idx : BizIndex) (sn : String)
    (existing : List (String × Option String)) (nextId : Int) :
    ∀ (evs : List RawEvent) (st : ImportState),
      st.imported = st.rows.length →
      (∀ k (h : k < st.rows.length), (st.rows.get ⟨k, h⟩).id = nextId + (k : Int)) →
      ((evs.foldl (processOne idx sn existing nextId) st).imported
          = (evs.foldl (processOne idx sn existing nextId) st).rows.length
       ∧ ∀ k (h : k < (evs.foldl (processOne idx sn existing nextId) st).rows.length),
          ((evs.foldl (processOne idx sn existing nextId) st).rows.get ⟨k, h⟩).id
            = nextId + (k : Int))
  | [], st => fun hlen hids => ⟨hlen, hids⟩
  | ev :: evs, st => fun hlen hids => by
    have step : ∀ st' : ImportState, st'.imported = st'.rows.length →
        (∀ k (h : k < st'.rows.length), (st'.rows.get ⟨k, h⟩).id = nextId + (k : Int)) →
        ((evs.foldl (processOne idx sn existing nextId) st').imported
            = (evs.foldl (processOne idx sn existing nextId) st').rows.length
         ∧ ∀ k (h : k < (evs.foldl (processOne idx sn existing nextId) st').rows.length),
            ((evs.foldl (processOne idx sn existing nextId) st').rows.get ⟨k, h⟩).id
              = nextId + (k : Int)) :=
      foldl_processOne_ids idx sn existing nextId evs
    simp only [List.foldl_cons]
    cases h : pyStr ev.name with
    | none =>
      have hp : processOne idx sn existing nextId st ev = st := by simp [processOne, h]
      rw [hp]; exact step st hlen hids
    | some n =>
      by_cases hm : (n, pyStr ev.date) ∈ existing
      · have hp : processOne idx sn existing nextId st ev
            = { st with duplicates := st.duplicates + 1 } := by simp [processOne, h, hm]
        rw [hp]
        exact step _ (by simpa using hlen) (by simpa using hids)
      · set bid := findMatchingBusiness idx (some n) (pyStr ev.location) with hbid
        set row : Row := {
          id := nextId + (st.imported : Int)
          name := n
          date := pyStr ev.date
          time := pyStr ev.time
          location := pyStr ev.location
          description := pyStr ev.description
          url := pyStr ev.url
          imageUrl := pyStr ev.imageUrl
          source := (pyStr ev.source).getD sn
          businessId := bid } with hrow
        have hp : processOne idx sn existing nextId st ev
            = { imported := st.imported + 1
                duplicates := st.duplicates
                bizMatches := st.bizMatches + (if bid.isSome then 1 else 0)
                rows := st.rows ++ [row] } := by
          simp only [processOne, h, hm, if_neg hm]
          rfl
        rw [hp]
        refine step _ (by simpa using by omega) ?_
        intro k hk
        simp only [List.length_append, List.length_cons, List.length_nil] at hk
        by_cases hlt : k < st.rows.length
        · simp only [List.get_eq_getElem]
          rw [List.getElem_append_left hlt]
          simpa [List.get_eq_getElem] using hids k hlt
        · have hke : k = st.rows.length := by omega
          subst hke
          simp only [List.get_eq_getElem]
          rw [List.getElem_append_right (le_refl st.rows.length)]
          simp [hrow, hlen]

/-- The fold inside `maxIdOf` dominates its starting value. -/
theorem foldl_maxI_ge_init :
    ∀ (xs : List Int) (a : Int), a ≤ xs.foldl (fun a b => if a < b then b else a) a
  | [], a => le_refl a
  | x :: xs, a => by
    simp only [List.foldl_cons]
    by_cases h : a < x
    · simp only [if_pos h]
      exact le_trans (le_of_lt h) (foldl_maxI_ge_init xs x)
    · simp only [if_neg h]
      exact foldl_maxI_ge_init xs a

/-- The fold inside `maxIdOf` dominates every element. -/
theorem foldl_maxI_ge_mem :
    ∀ (xs : List Int) (a b : Int), b ∈ xs →
      b ≤ xs.foldl (fun a b => if a < b then b else a) a
  | [], _, _, hb => absurd hb (List.not_mem_nil _)
  | x :: xs, a, b, hb => by
    simp only [List.foldl_cons]
    rcases List.mem_cons.mp hb with rfl | hb'
    · by_cases h : a < b
      · simp only [if_pos h]; exact foldl_maxI_ge_init xs b
      · simp only [if_neg h]
        exact le_trans (le_of_not_lt h) (foldl_maxI_ge_init xs a)
    · by_cases h : a < x
      · simp only [if_pos h]; exact foldl_maxI_ge_mem xs x b hb'
      · simp only [if_neg h]; exact foldl_maxI_ge_mem xs a b hb'

/-- `SELECT MAX(id)` dominates every pre-existing id. -/
theorem le_maxIdOf (l : List Int) (m : Int) (hm : maxIdOf l = some m) :
    ∀ p ∈ l, p ≤ m := by
  intro p hp
  cases l with
  | nil => cases hp
  | cons x xs =>
    simp only [maxIdOf, Option.some.injEq] at hm
    subst hm
    rcases List.mem_cons.mp hp with rfl | hp'
    · exact foldl_maxI_ge_init xs p
    · exact foldl_maxI_ge_mem xs x p hp'

/-- C10: in one run the k-th admitted record (from 0) is assigned id
`next_id + k` with `next_id` derived from the maximum pre-existing id + 1
(or 0 on an empty table), so the batch ids are strictly increasing in input
order and strictly greater than every pre-existing id. -/
theorem importRun_sequential_ids (idx : BizIndex) (sn : String)
    (existing : List (String × Option String)) (preIds : List Int)
    (evs : List RawEvent) :
    ∀ k (h : k < (importRun idx sn existing (nextIdFrom preIds) evs).rows.length),
      ((importRun idx sn existing (nextIdFrom preIds) evs).rows.get ⟨k, h⟩).id
          = nextIdFrom preIds + (k : Int)
      ∧ ∀ p ∈ preIds,
          p < ((importRun idx sn existing (nextIdFrom preIds) evs).rows.get ⟨k, h⟩).id := by
  intro k h
  have hinv := foldl_processOne_ids idx sn existing (nextIdFrom preIds) evs initState
    (by simp [initState]) (by intro k hk; simp [initState] at hk)
  have hid : ((importRun idx sn existing (nextIdFrom preIds) evs).rows.get ⟨k, h⟩).id
      = nextIdFrom preIds + (k : Int) := hinv.2 k h
  refine ⟨hid, ?_⟩
  intro p hp
  rw [hid]
  cases hml : maxIdOf preIds with
  | none => cases preIds with
    | nil => cases hp
    | cons x xs => simp [maxIdOf] at hml
  | some m =>
    have hle := le_maxIdOf preIds m hml p hp
    simp only [nextIdFrom, hml]
    omega

/-- Witness for C10 at a concrete run: one admitted record after pre-existing
ids {3, 7, 5} gets id 8 = max + 1, larger than every pre-existing id. -/
theorem importRun_sequential_ids_witness :
    ((importRun (buildIndex []) "hcs" [] (nextIdFrom [3, 7, 5]) [ftfEvent]).rows.get
        ⟨0, by decide⟩).id = nextIdFrom [3, 7, 5] + (0 : Int)
    ∧ ∀ p ∈ [(3 : Int), 7, 5],
        p < ((importRun (buildIndex []) "hcs" [] (nextIdFrom [3, 7, 5]) [ftfEvent]).rows.get
          ⟨0, by decide⟩).id :=
  importRun_sequential_ids (buildIndex []) "hcs" [] [3, 7, 5] [ftfEvent] 0 (by decide)

/-! ## Claims about the scraper's date handling -/

/-- C8: the far-future filter of `get_all_events` keeps an event with a
resolved date iff that date is at most 365 days after "now": a parsed date
more than 365 days out is excluded, one at or before the threshold is kept. -/
theorem filterSuspicious_far_future (today : Date) (evs : List HcsEvent)
    (e : HcsEvent) (d : Date) (hd : e.date = some d) :
    (e ∈ evs → toOrdinal d ≤ toOrdinal today + 365 → e ∈ filterSuspicious today evs)
    ∧ (toOrdinal today + 365 < toOrdinal d → e ∉ filterSuspicious today evs) := by
  constructor
  · intro hin hle
    refine List.mem_filter.mpr ⟨hin, ?_⟩
    simp [hd, hle]
  · intro hgt hmem
    have := (List.mem_filter.mp hmem).2
    simp [hd] at this
    omega

/-- Witness for C8: with now = 2024-09-01, an event dated 2026-01-01
(> 365 days out) is dropped and one dated 2024-12-25 is kept. -/
theorem filterSuspicious_far_future_witness :
    (⟨"Festival", some ⟨2026, 1, 1⟩⟩ : HcsEvent)
        ∉ filterSuspicious ⟨2024, 9, 1⟩ [⟨"Festival", some ⟨2026, 1, 1⟩⟩]
    ∧ (⟨"Market", some ⟨2024, 12, 25⟩⟩ : HcsEvent)
        ∈ filterSuspicious ⟨2024, 9, 1⟩ [⟨"Market", some ⟨2024, 12, 25⟩⟩] := by
  constructor
  · exact (filterSuspicious_far_future ⟨2024, 9, 1⟩ _ _ ⟨2026, 1, 1⟩ rfl).2 (by decide)
  · exact (filterSuspicious_far_future ⟨2024, 9, 1⟩ _ _ ⟨2024, 12, 25⟩ rfl).1
      (by decide) (by decide)

/-- C2 counterexample: an event whose date extraction yielded `null` does NOT
proceed: `scrape_event` returns `None` for it (lines 558-563), and even an
already-built event with a null date is excluded by the final filter
(lines 115-123) — contradicting "still importable / not excluded". -/
theorem nullDate_event_is_dropped :
    scrapeEventGate "Wine Tasting at The Royal American" none = none
    ∧ filterSuspicious ⟨2024, 9, 1⟩ [⟨"Wine Tasting", none⟩] = [] := by
  constructor <;> rfl

/-- C2 (amended): date extraction is best-effort and yields `null` rather
than raising, but an event with a null date does not survive the pipeline:
`scrape_event` returns `None` whenever no date was extracted, and the final
far-future filter excludes every event whose date is `null`. -/
theorem nullDate_never_proceeds :
    (∀ name : String, scrapeEventGate name none = none)
    ∧ (∀ (today : Date) (evs : List HcsEvent) (e : HcsEvent),
        e ∈ evs → e.date = none → e ∉ filterSuspicious today evs) := by
  constructor
  · intro name
    simp [scrapeEventGate]
  · intro today evs e _ hd hmem
    have := (List.mem_filter.mp hmem).2
    simp [hd] at this

/-- Witness for C2 (amended) at a concrete event. -/
theorem nullDate_never_proceeds_witness :
    scrapeEventGate "Wine Tasting" none = none
    ∧ (⟨"Wine Tasting", none⟩ : HcsEvent)
        ∉ filterSuspicious ⟨2024, 9, 1⟩ [⟨"Oyster Roast", some ⟨2024, 10, 5⟩⟩, ⟨"Wine Tasting", none⟩] :=
  ⟨nullDate_never_proceeds.1 "Wine Tasting",
   nullDate_never_proceeds.2 ⟨2024, 9, 1⟩ _ _ (by decide) rfl⟩

/-- C6 counterexample: in `scrape_event`'s description date extraction, the
text "March 3" read when now is 2024-09-01 resolves to 2024-03-03 even though
that date is 182 (> 180) days in the past — the year is NOT rolled forward
there, contradicting the claim's universal rollover policy. -/
theorem scrapeDescDate_no_rollover :
    scrapeDescDate ⟨2024, 9, 1⟩ "March" 3 none = some ⟨2024, 3, 3⟩
    ∧ 180 < toOrdinal ⟨2024, 9, 1⟩ - toOrdinal ⟨2024, 3, 3⟩
    ∧ scrapeDescDate ⟨2024, 9, 1⟩ "March" 3 none ≠ some ⟨2025, 3, 3⟩ := by
  refine ⟨by decide, by decide, by decide⟩

/-- C6 (amended): the 180-day rollover applies only in
`_extract_events_from_text`: there a date whose year was absent (defaulted to
the current year) and which lies more than 180 days in the past is rolled
forward one year (provided the rolled date is a valid calendar date), while
`scrape_event`'s own extractor keeps the defaulted current year unchanged. -/
theorem textDate_rollover_only_in_text_extractor :
    (∀ (now : Date) (month : String) (m day : Nat),
      monthNumFull month = some m →
      validDate ⟨now.year, m, day⟩ = true →
      180 < toOrdinal now - toOrdinal ⟨now.year, m, day⟩ →
      validDate ⟨now.year + 1, m, day⟩ = true →
      resolveTextDate now month day none = some ⟨now.year + 1, m, day⟩)
    ∧ (∀ (now : Date) (month : String) (m day : Nat),
      monthAbbr (take3 month) = some m →
      scrapeDescDate now month day none = some ⟨now.year, m, day⟩) := by
  constructor
  · intro now month m day hm hv hpast hv'
    simp only [resolveTextDate, Option.getD_none, Option.getD_some, hm]
    rw [if_pos hv, if_pos (by omega : 180 < toOrdinal now - toOrdinal ⟨now.year, m, day⟩),
      if_pos hv']
  · intro now month m day hm
    simp [scrapeDescDate, hm]

/-- Witness for C6 (amended): "March 3" with now = 2024-09-01 resolves to
2025-03-03 in the text extractor and to 2024-03-03 in `scrape_event`. -/
theorem textDate_rollover_witness :
    resolveTextDate ⟨2024, 9, 1⟩ "March" 3 none = some ⟨2025, 3, 3⟩
    ∧ scrapeDescDate ⟨2024, 9, 1⟩ "March" 3 none = some ⟨2024, 3, 3⟩ :=
  ⟨textDate_rollover_only_in_text_extractor.1 ⟨2024, 9, 1⟩ "March" 3 3 (by decide)
      (by decide) (by decide) (by decide),
   textDate_rollover_only_in_text_extractor.2 ⟨2024, 9, 1⟩ "March" 3 3 (by decide)⟩

/-! ## C7: location-exact precedence and the `if not business_id` slip -/

/-- C7: the location-exact map sends "123 main st" to venue 0, yet the
matcher returns venue 1: `if not business_id:` (line 372) treats the matched
id 0 as "no match yet" and lets Method 2 override the exact-location hit. -/
theorem locationExact_overridden_for_id_zero :
    lookupD (lowerS "123 Main St") (buildIndex truthyBugCatalog).byLocation = some 0
    ∧ findMatchingBusiness (buildIndex truthyBugCatalog)
        (some "Trivia Night") (some "123 Main St") = some 1 := by
  constructor <;> decide

/-! ## C5: keyword-fallback accounting -/

theorem lookupPts_addPoints (b b' : Int) (p : Nat) :
    ∀ acc, lookupPts b (addPoints b' p acc)
      = lookupPts b acc + (if b' = b then p else 0)
  | [] => by
    by_cases h : b' = b <;> simp [lookupPts, addPoints, h]
  | (c, q) :: rest => by
    have ih := lookupPts_addPoints b b' p rest
    simp only [addPoints]
    by_cases hc : c = b'
    · rw [if_pos hc]
      by_cases hb : c = b
      · have hbb : b' = b := hc ▸ hb
        simp [lookupPts, hb, hbb]
      · have hbb : ¬ b' = b := fun h => hb (hc.trans h)
        simp [lookupPts, hb, hbb]
    · rw [if_neg hc]
      by_cases hb : c = b
      · have hb'b : ¬ b' = b := fun h => hc (hb.trans h.symm)
        simp [lookupPts, hb, hb'b]
      · simp only [lookupPts, if_neg hb]
        exact ih

theorem lookupPts_tallyIds (b : Int) (p : Nat) :
    ∀ (ids : List Int) (acc : List (Int × Nat)),
      lookupPts b (tallyIds p ids acc) = lookupPts b acc + p * ids.count b
  | [], acc => by simp [tallyIds]
  | i :: ids, acc => by
    have ih := lookupPts_tallyIds b p ids (addPoints i p acc)
    simp only [tallyIds, List.foldl_cons] at ih ⊢
    rw [ih, lookupPts_addPoints, List.count_cons]
    by_cases h : i = b
    · rw [if_pos h, show (i == b) = true by simpa using h]
      simp only [if_true, Nat.mul_add, Nat.mul_one]
      generalize p * List.count b ids = m
      omega
    · rw [if_neg h, show (i == b) = false by simpa using h]
      simp

theorem lookupPts_tallyTokens (kw : List (String × List Int)) (b : Int) (p : Nat) :
    ∀ (tokens : List String) (acc : List (Int × Nat)),
      lookupPts b (tallyTokens kw p tokens acc)
        = lookupPts b acc + p * hitCount kw b tokens
  | [], acc => by simp [tallyTokens, hitCount]
  | t :: ts, acc => by
    have hh : hitCount kw b (t :: ts)
        = ((lookupD t kw).getD []).count b + hitCount kw b ts := by
      simp [hitCount]
    cases hl : lookupD t kw with
    | none =>
      have ih := lookupPts_tallyTokens kw b p ts acc
      simp only [tallyTokens, List.foldl_cons, hl] at ih ⊢
      rw [ih, hh, hl]
      simp
    | some ids =>
      have ih := lookupPts_tallyTokens kw b p ts (tallyIds p ids acc)
      simp only [tallyTokens, List.foldl_cons, hl] at ih ⊢
      rw [ih, lookupPts_tallyIds, hh, hl]
      simp only [Option.getD_some, Nat.mul_add]
      generalize p * List.count b ids = m
      generalize p * hitCount kw b ts = m'
      omega

/-- The result of the `max(..., key=lambda x: x[1])` fold is one of the
candidates. -/
theorem foldl_pick_mem :
    ∀ (ys : List (Int × Nat)) (a : Int × Nat),
      ys.foldl (fun best y => if y.2 > best.2 then y else best) a ∈ a :: ys
  | [], a => List.mem_cons_self a []
  | y :: ys, a => by
    simp only [List.foldl_cons]
    by_cases h : y.2 > a.2
    · rw [if_pos h]
      rcases List.mem_cons.mp (foldl_pick_mem ys y) with h' | h'
      · rw [h']
        exact List.mem_cons.mpr (Or.inr (List.mem_cons_self y ys))
      · exact List.mem_cons.mpr (Or.inr (List.mem_cons.mpr (Or.inr h')))
    · rw [if_neg h]
      rcases List.mem_cons.mp (foldl_pick_mem ys a) with h' | h'
      · rw [h']
        exact List.mem_cons_self a (y :: ys)
      · exact List.mem_cons.mpr (Or.inr (List.mem_cons.mpr (Or.inr h')))

theorem maxBySnd_mem (l : List (Int × Nat)) (x : Int × Nat)
    (h : maxBySnd l = some x) : x ∈ l := by
  cases l with
  | nil => cases h
  | cons y ys =>
    simp only [maxBySnd, Option.some.injEq] at h
    exact h ▸ foldl_pick_mem ys y

/-- Any key in `addPoints b p acc` is either a key of `acc` or `b`. -/
theorem mem_keys_addPoints (b x : Int) (p : Nat) :
    ∀ acc, x ∈ (addPoints b p acc).map Prod.fst →
      x ∈ acc.map Prod.fst ∨ x = b
  | [] => by
    intro h
    simp [addPoints] at h
    exact Or.inr h
  | (c, q) :: rest => by
    intro h
    simp only [addPoints] at h
    by_cases hc : c = b
    · rw [if_pos hc] at h
      simp only [List.map_cons, List.mem_cons] at h ⊢
      exact Or.inl h
    · rw [if_neg hc] at h
      simp only [List.map_cons, List.mem_cons] at h ⊢
      rcases h with rfl | h'
      · exact Or.inl (Or.inl rfl)
      · rcases mem_keys_addPoints b x p rest h' with h'' | h''
        · exact Or.inl (Or.inr h'')
        · exact Or.inr h''

/-- `addPoints` preserves key uniqueness of the accumulator. -/
theorem nodup_keys_addPoints (b : Int) (p : Nat) :
    ∀ acc, (acc.map Prod.fst).Nodup → ((addPoints b p acc).map Prod.fst).Nodup
  | [] => by
    intro _
    simp [addPoints]
  | (c, q) :: rest => by
    intro hnd
    simp only [List.map_cons, List.nodup_cons] at hnd
    simp only [addPoints]
    by_cases hc : c = b
    · rw [if_pos hc]
      simp only [List.map_cons, List.nodup_cons]
      exact hnd
    · rw [if_neg hc]
      simp only [List.map_cons, List.nodup_cons]
      refine ⟨?_, nodup_keys_addPoints b p rest hnd.2⟩
      intro hmem
      rcases mem_keys_addPoints b c p rest hmem with h' | h'
      · exact hnd.1 h'
      · exact hc h'

theorem nodup_keys_tallyIds (p : Nat) :
    ∀ (ids : List Int) (acc : List (Int × Nat)),
      (acc.map Prod.fst).Nodup → ((tallyIds p ids acc).map Prod.fst).Nodup
  | [], _ => fun h => h
  | i :: ids, acc => fun h => by
    simp only [tallyIds, List.foldl_cons]
    exact nodup_keys_tallyIds p ids (addPoints i p acc) (nodup_keys_addPoints i p acc h)

theorem nodup_keys_tallyTokens (kw : List (String × List Int)) (p : Nat) :
    ∀ (tokens : List String) (acc : List (Int × Nat)),
      (acc.map Prod.fst).Nodup → ((tallyTokens kw p tokens acc).map Prod.fst).Nodup
  | [], _ => fun h => h
  | t :: ts, acc => fun h => by
    simp only [tallyTokens, List.foldl_cons]
    cases hl : lookupD t kw with
    | none => exact nodup_keys_tallyTokens kw p ts acc h
    | some ids =>
      exact nodup_keys_tallyTokens kw p ts (tallyIds p ids acc)
        (nodup_keys_tallyIds p ids acc h)

/-- With unique keys, a member's points are what `lookupPts` reads. -/
theorem lookupPts_eq_of_mem (b : Int) (p : Nat) :
    ∀ acc, (acc.map Prod.fst).Nodup → (b, p) ∈ acc → lookupPts b acc = p
  | [] => fun _ hmem => absurd hmem (List.not_mem_nil _)
  | (c, q) :: rest => fun hnd hmem => by
    simp only [List.map_cons, List.nodup_cons] at hnd
    rcases List.mem_cons.mp hmem with heq | hmem'
    · injection heq with h1 h2
      subst h1; subst h2
      simp [lookupPts]
    · have hcb : ¬ c = b := by
        intro hcb
        subst hcb
        exact hnd.1 (List.mem_map_of_mem Prod.fst hmem')
      simp only [lookupPts, if_neg hcb]
      exact lookupPts_eq_of_mem b p rest hnd.2 hmem'

/-- C5: in the keyword fallback, each event-location token hit is worth 2
points and each event-name token hit 1 point (the accumulated total of a
venue is exactly `2·locHits + nameHits`); a venue is returned only when its
total is ≥ 2; and for an event sharing exactly one 4+-letter keyword with
exactly one venue, a location-only overlap (2 points) matches while a
name-only overlap (1 point) does not. -/
theorem keywordMatch_scoring :
    (∀ (kw : List (String × List Int)) (loc name : Option String) (b : Int),
      lookupPts b (potentialMatches kw loc name)
        = 2 * hitCount kw b (locTokens loc) + hitCount kw b (nameTokens name))
    ∧ (∀ (kw : List (String × List Int)) (loc name : Option String) (b : Int),
      keywordMatch kw loc name = some b →
      2 ≤ 2 * hitCount kw b (locTokens loc) + hitCount kw b (nameTokens name))
    ∧ keywordMatch (buildKeywords [⟨5, some "Magnolia Hall", none⟩])
        (some "Magnolia Street") (some "Trivia Night") = some 5
    ∧ keywordMatch (buildKeywords [⟨5, some "Magnolia Hall", none⟩])
        (some "King Street") (some "Magnolia Festival") = none := by
  have hacct : ∀ (kw : List (String × List Int)) (loc name : Option String) (b : Int),
      lookupPts b (potentialMatches kw loc name)
        = 2 * hitCount kw b (locTokens loc) + hitCount kw b (nameTokens name) := by
    intro kw loc name b
    simp only [potentialMatches]
    rw [lookupPts_tallyTokens, lookupPts_tallyTokens]
    simp [lookupPts]
  refine ⟨hacct, ?_, by decide, by decide⟩
  intro kw loc name b h
  rw [← hacct]
  simp only [keywordMatch] at h
  cases hmx : maxBySnd (potentialMatches kw loc name) with
  | none => rw [hmx] at h; cases h
  | some best =>
    rw [hmx] at h
    simp only at h
    by_cases h2 : 2 ≤ best.2
    · rw [if_pos h2] at h
      injection h with hb
      subst hb
      have hmem := maxBySnd_mem _ _ hmx
      have hnd : ((potentialMatches kw loc name).map Prod.fst).Nodup := by
        simp only [potentialMatches]
        exact nodup_keys_tallyTokens kw 1 _ _
          (nodup_keys_tallyTokens kw 2 _ _ (by simp))
      have hval := lookupPts_eq_of_mem best.1 best.2 _ hnd hmem
      omega
    · rw [if_neg h2] at h; cases h

/-- Witness for C5: the location-only Magnolia event matches venue 5, whose
total is indeed ≥ 2. -/
theorem keywordMatch_scoring_witness :
    2 ≤ 2 * hitCount (buildKeywords [⟨5, some "Magnolia Hall", none⟩]) 5
          (locTokens (some "Magnolia Street"))
        + hitCount (buildKeywords [⟨5, some "Magnolia Hall", none⟩]) 5
          (nameTokens (some "Trivia Night")) :=
  keywordMatch_scoring.2.1 (buildKeywords [⟨5, some "Magnolia Hall", none⟩])
    (some "Magnolia Street") (some "Trivia Night") 5 (by decide)

/-! ## C3: behaviour on absent name/location -/

/-- C3 counterexample: with an empty location, `create_venue_connections`
skips the event entirely (`if not location: continue`, lines 54-56) — the
name-to-name strategy is NOT attempted even though, with any non-empty
location, the very same configuration matches via name-to-name with score
100. -/
theorem emptyLocation_skips_whole_event :
    processEvent jazzScorer ["The Gin Joint"] [some "182 East Bay St"]
        "" "Live Jazz Night" = none
    ∧ processEvent jazzScorer ["The Gin Joint"] [some "182 East Bay St"]
        "Somewhere" "Live Jazz Night" = some (0, .nameToName, 100) := by
  constructor <;> decide

/-- C3 (amended): the matchers never raise (they are total functions), but
the two matchers treat an absent location differently: in
`create_venue_connections` an empty location skips the event entirely — no
strategy at all, name-to-name included, is attempted — while in
`_find_matching_business` a null location skips only the location-based
methods: with a non-null name the name-contains method still runs, and when
it finds nothing the keyword fallback still runs. -/
theorem absent_location_strategy_skipping :
    (∀ (fuzzScore : String → String → Nat) (names : List String)
        (locs : List (Option String)) (name : String),
      processEvent fuzzScore names locs "" name = none)
    ∧ (∀ (idx : BizIndex) (name bn : String) (bid : Int),
      name.data.isEmpty = false →
      idx.byName.find? (fun p => strContains (lowerS name) p.1) = some (bn, bid) →
      ¬ bid = 0 →
      findMatchingBusiness idx (some name) none = some bid)
    ∧ (∀ (idx : BizIndex) (name : String),
      name.data.isEmpty = false →
      idx.byName.find? (fun p => strContains (lowerS name) p.1) = none →
      findMatchingBusiness idx (some name) none
        = (match keywordMatch idx.keywords none (some name) with
           | some b => some b
           | none => none)) := by
  refine ⟨?_, ?_, ?_⟩
  · intro fuzzScore names locs name
    simp [processEvent]
  · intro idx name bn bid hne hfind hbid
    simp only [findMatchingBusiness, firstNameContained, hfind, Option.map_some,
      pyFalsy, strTruthy, hne]
    simp [pyFalsy, hbid]
  · intro idx name hne hfind
    simp only [findMatchingBusiness, firstNameContained, hfind, Option.map_none,
      pyFalsy, strTruthy, hne]
    simp [pyFalsy]

/-- Witness for C3 (amended): with a null location, an event name containing
a venue name still matches via the name-contains method. -/
theorem absent_location_strategy_skipping_witness :
    findMatchingBusiness (buildIndex [⟨7, some "Gin Joint", some "182 East Bay St"⟩])
      (some "Jazz at Gin Joint") none = some 7 :=
  absent_location_strategy_skipping.2.1
    (buildIndex [⟨7, some "Gin Joint", some "182 East Bay St"⟩])
    "Jazz at Gin Joint" "gin joint" 7 (by decide) (by decide) (by decide)

/-! ## C4: threshold boundaries of the fuzzy cascade -/

/-- A cleaned business name that passes the eligibility guard is non-empty
uncleaned as well (cleaning only removes characters), so `best_match` set
from it is truthy. -/
theorem orig_nonempty_of_eligible (n : String)
    (h : nameEligible (cleanS n) = true) : n.data.isEmpty = false := by
  cases hn : n.data with
  | nil =>
    exfalso
    have hclean : (cleanS n).data = [] := by simp [cleanS, hn]
    rw [nameEligible, hclean] at h
    simp at h
  | cons c cs => rfl

theorem vcStep1_inv (fuzzScore : String → String → Nat) (cl cn : String)
    (names : List String) (rows : List (String × Option String))
    (j : Nat) (n : String) (st : VCState)
    (hj : names.get? j = some n)
    (hinv : vcInv fuzzScore cl cn names rows st) :
    vcInv fuzzScore cl cn names rows (vcStep1 fuzzScore cl j n st) := by
  simp only [vcStep1]
  by_cases he : nameEligible (cleanS n) = true
  · rw [if_pos he]
    by_cases h80 : 80 < fuzzScore cl (cleanS n)
    · by_cases hbs : st.bestScore < fuzzScore cl (cleanS n)
      · rw [if_pos (by simp [h80, hbs])]
        refine ⟨?_, ?_, ?_⟩
        · intro _
          exact ⟨h80, j, n, rfl, hj, rfl, he, rfl⟩
        · intro hmt; simp at hmt
        · intro hmt; simp at hmt
      · rw [if_neg (by simp [hbs])]
        exact hinv
    · rw [if_neg (by simp [h80])]
      exact hinv
  · rw [if_neg he]
    exact hinv

theorem vcLoop1_inv (fuzzScore : String → String → Nat) (cl cn : String)
    (names : List String) (rows : List (String × Option String)) :
    ∀ (l : List String) (j : Nat) (st : VCState),
      (∀ i n, l.get? i = some n → names.get? (j + i) = some n) →
      vcInv fuzzScore cl cn names rows st →
      vcInv fuzzScore cl cn names rows (vcLoop1 fuzzScore cl j l st)
  | [], _, _ => fun _ h => h
  | n :: rest, j, st => fun hpos hinv => by
    simp only [vcLoop1]
    refine vcLoop1_inv fuzzScore cl cn names rows rest (j + 1)
      (vcStep1 fuzzScore cl j n st) ?_ ?_
    · intro i n' hi
      have h := hpos (i + 1) n' (by simpa using hi)
      have h2 : j + (i + 1) = j + 1 + i := by omega
      rw [h2] at h
      exact h
    · exact vcStep1_inv fuzzScore cl cn names rows j n st
        (by simpa using hpos 0 n rfl) hinv

theorem vcStep2_inv (fuzzScore : String → String → Nat) (cl cn : String)
    (names : List String) (rows : List (String × Option String))
    (j : Nat) (n : String) (bloc : Option String) (st : VCState)
    (hj : rows.get? j = some (n, bloc))
    (hinv : vcInv fuzzScore cl cn names rows st) :
    vcInv fuzzScore cl cn names rows (vcStep2 fuzzScore cl j n bloc st) := by
  cases bloc with
  | none => simp only [vcStep2]; exact hinv
  | some bl =>
    simp only [vcStep2]
    by_cases hbe : bl.data.isEmpty
    · rw [if_pos hbe]
      exact hinv
    · rw [if_neg hbe]
      by_cases h80 : 80 < fuzzScore cl (cleanS bl)
      · by_cases hbs : st.bestScore < fuzzScore cl (cleanS bl)
        · rw [if_pos (by simp [h80, hbs])]
          refine ⟨?_, ?_, ?_⟩
          · intro hmt; simp at hmt
          · intro _
            exact ⟨h80, j, n, bl, rfl, hj, rfl, rfl⟩
          · intro hmt; simp at hmt
        · rw [if_neg (by simp [hbs])]
          exact hinv
      · rw [if_neg (by simp [h80])]
        exact hinv

theorem vcLoop2_inv (fuzzScore : String → String → Nat) (cl cn : String)
    (names : List String) (rows : List (String × Option String)) :
    ∀ (l : List (String × Option String)) (j : Nat) (st : VCState),
      (∀ i x, l.get? i = some x → rows.get? (j + i) = some x) →
      vcInv fuzzScore cl cn names rows st →
      vcInv fuzzScore cl cn names rows (vcLoop2 fuzzScore cl j l st)
  | [], _, _ => fun _ h => h
  | (n, bloc) :: rest, j, st => fun hpos hinv => by
    simp only [vcLoop2]
    refine vcLoop2_inv fuzzScore cl cn names rows rest (j + 1)
      (vcStep2 fuzzScore cl j n bloc st) ?_ ?_
    · intro i x hi
      have h := hpos (i + 1) x (by simpa using hi)
      have h2 : j + (i + 1) = j + 1 + i := by omega
      rw [h2] at h
      exact h
    · exact vcStep2_inv fuzzScore cl cn names rows j n bloc st
        (by simpa using hpos 0 (n, bloc) rfl) hinv

theorem vcStep3_inv (fuzzScore : String → String → Nat) (cl cn : String)
    (names : List String) (rows : List (String × Option String))
    (j : Nat) (n : String) (st : VCState)
    (hj : names.get? j = some n)
    (hinv : vcInv fuzzScore cl cn names rows st) :
    vcInv fuzzScore cl cn names rows (vcStep3 fuzzScore cn j n st) := by
  simp only [vcStep3]
  by_cases he : nameEligible (cleanS n) = true
  · rw [if_pos he]
    by_cases h85 : 85 < fuzzScore cn (cleanS n)
    · by_cases hbs : st.bestScore < fuzzScore cn (cleanS n)
      · rw [if_pos (by simp [h85, hbs])]
        refine ⟨?_, ?_, ?_⟩
        · intro hmt; simp at hmt
        · intro hmt; simp at hmt
        · intro _
          exact ⟨h85, j, n, rfl, hj, rfl, he, rfl⟩
      · rw [if_neg (by simp [hbs])]
        exact hinv
    · rw [if_neg (by simp [h85])]
      exact hinv
  · rw [if_neg he]
    exact hinv

theorem vcLoop3_inv (fuzzScore : String → String → Nat) (cl cn : String)
    (names : List String) (rows : List (String × Option String)) :
    ∀ (l : List String) (j : Nat) (st : VCState),
      (∀ i n, l.get? i = some n → names.get? (j + i) = some n) →
      vcInv fuzzScore cl cn names rows st →
      vcInv fuzzScore cl cn names rows (vcLoop3 fuzzScore cn j l st)
  | [], _, _ => fun _ h => h
  | n :: rest, j, st => fun hpos hinv => by
    simp only [vcLoop3]
    refine vcLoop3_inv fuzzScore cl cn names rows rest (j + 1)
      (vcStep3 fuzzScore cn j n st) ?_ ?_
    · intro i n' hi
      have h := hpos (i + 1) n' (by simpa using hi)
      have h2 : j + (i + 1) = j + 1 + i := by omega
      rw [h2] at h
      exact h
    · exact vcStep3_inv fuzzScore cl cn names rows j n st
        (by simpa using hpos 0 n rfl) hinv

/-- Soundness of the cascade: a recorded match's score is its own strategy's
score for the recorded candidate and exceeds that strategy's threshold. -/
theorem processEvent_sound (fuzzScore : String → String → Nat)
    (names : List String) (locs : List (Option String))
    (location eventName : String) (j : Nat) (mt : MatchType) (s : Nat)
    (h : processEvent fuzzScore names locs location eventName = some (j, mt, s)) :
    (mt = .locationToName →
      80 < s ∧ ∃ n, names.get? j = some n
        ∧ s = fuzzScore (cleanS location) (cleanS n))
    ∧ (mt = .locationToLocation →
      80 < s ∧ ∃ n l, (names.zip locs).get? j = some (n, some l)
        ∧ s = fuzzScore (cleanS location) (cleanS l))
    ∧ (mt = .nameToName →
      85 < s ∧ ∃ n, names.get? j = some n
        ∧ s = fuzzScore (cleanS eventName) (cleanS n)) := by
  simp only [processEvent] at h
  by_cases hloc : location.data.isEmpty
  · rw [if_pos hloc] at h; cases h
  · rw [if_neg hloc] at h
    set cl := cleanS location with hcl
    set cn := cleanS eventName with hcn
    set rows := names.zip locs with hrows
    set st1 := vcLoop1 fuzzScore cl 0 names vcInit with hst1
    have hinv1 : vcInv fuzzScore cl cn names rows st1 :=
      vcLoop1_inv fuzzScore cl cn names rows names 0 vcInit
        (fun i n hi => by simpa using hi)
        (by refine ⟨?_, ?_, ?_⟩ <;> intro hmt <;> simp [vcInit] at hmt)
    set st2 := if strTruthy st1.bestMatch = true then st1
               else vcLoop2 fuzzScore cl 0 rows st1 with hst2
    have hinv2 : vcInv fuzzScore cl cn names rows st2 := by
      rw [hst2]
      by_cases ht : strTruthy st1.bestMatch = true
      · rw [if_pos ht]; exact hinv1
      · rw [if_neg ht]
        exact vcLoop2_inv fuzzScore cl cn names rows rows 0 st1
          (fun i x hi => by simpa using hi) hinv1
    set st3 := if strTruthy st2.bestMatch = true then st2
               else vcLoop3 fuzzScore cn 0 names st2 with hst3
    have hinv3 : vcInv fuzzScore cl cn names rows st3 := by
      rw [hst3]
      by_cases ht : strTruthy st2.bestMatch = true
      · rw [if_pos ht]; exact hinv2
      · rw [if_neg ht]
        exact vcLoop3_inv fuzzScore cl cn names rows names 0 st2
          (fun i n hi => by simpa using hi) hinv2
    cases hbm : st3.bestMatch with
    | none => rw [hbm] at h; cases h
    | some bm =>
      cases hmt : st3.matchType with
      | none => rw [hbm, hmt] at h; cases h
      | some mt' =>
        cases hmi : st3.matchIndex with
        | none => rw [hbm, hmt, hmi] at h; cases h
        | some j' =>
          rw [hbm, hmt, hmi] at h
          have h2 : (if bm.data.isEmpty = true then (none : Option (Nat × MatchType × Nat))
              else some (j', mt', st3.bestScore)) = some (j, mt, s) := h
          by_cases hbme : bm.data.isEmpty
          · rw [if_pos hbme] at h2; cases h2
          · rw [if_neg hbme] at h2
            injection h2 with h3
            injection h3 with hj h4
            injection h4 with hmt2 hs
            subst hj
            subst hmt2
            subst hs
            refine ⟨?_, ?_, ?_⟩
            · intro hmtv
              subst hmtv
              obtain ⟨hgt, j0, n0, hmi0, hn0, _, _, hsc⟩ := hinv3.1 hmt
              rw [hmi] at hmi0
              injection hmi0 with hje
              subst hje
              exact ⟨hgt, n0, hn0, hsc⟩
            · intro hmtv
              subst hmtv
              obtain ⟨hgt, j0, n0, l0, hmi0, hn0, _, hsc⟩ := hinv3.2.1 hmt
              rw [hmi] at hmi0
              injection hmi0 with hje
              subst hje
              exact ⟨hgt, n0, l0, hn0, hsc⟩
            · intro hmtv
              subst hmtv
              obtain ⟨hgt, j0, n0, hmi0, hn0, _, _, hsc⟩ := hinv3.2.2 hmt
              rw [hmi] at hmi0
              injection hmi0 with hje
              subst hje
              exact ⟨hgt, n0, hn0, hsc⟩

/-- If every eligible candidate scores at most the current best, the
location-to-name loop changes nothing. -/
theorem vcLoop1_no_update (fuzzScore : String → String → Nat) (cl : String) :
    ∀ (l : List String) (j : Nat) (st : VCState),
      (∀ i n, l.get? i = some n → nameEligible (cleanS n) = true →
        fuzzScore cl (cleanS n) ≤ st.bestScore) →
      vcLoop1 fuzzScore cl j l st = st
  | [], _, _ => fun _ => rfl
  | n :: rest, j, st => fun hall => by
    have hstep : vcStep1 fuzzScore cl j n st = st := by
      simp only [vcStep1]
      by_cases he : nameEligible (cleanS n) = true
      · rw [if_pos he]
        have hle := hall 0 n rfl he
        rw [if_neg (by simp; omega)]
      · rw [if_neg he]
    simp only [vcLoop1, hstep]
    exact vcLoop1_no_update fuzzScore cl rest (j + 1) st
      (fun i m hi hm => hall (i + 1) m (by simpa using hi) hm)

/-- If some eligible candidate scores exactly 81 and none scores higher, the
location-to-name loop (from the initial state) records an 81 match. -/
theorem vcLoop1_hits_81 (fuzzScore : String → String → Nat) (cl : String) :
    ∀ (l : List String) (j : Nat),
      (∃ i n, l.get? i = some n ∧ nameEligible (cleanS n) = true
        ∧ fuzzScore cl (cleanS n) = 81) →
      (∀ i n, l.get? i = some n → nameEligible (cleanS n) = true →
        fuzzScore cl (cleanS n) ≤ 81) →
      ∃ j' n', vcLoop1 fuzzScore cl j l vcInit
          = ⟨some n', 81, some .locationToName, some j'⟩
        ∧ nameEligible (cleanS n') = true
  | [], j => fun ⟨i, n, hi, _⟩ _ => by cases i <;> cases hi
  | n :: rest, j => fun hex hall => by
    by_cases he : nameEligible (cleanS n) = true
    · by_cases h81 : fuzzScore cl (cleanS n) = 81
      · have hstep : vcStep1 fuzzScore cl j n vcInit
            = ⟨some n, 81, some .locationToName, some j⟩ := by
          simp only [vcStep1, if_pos he, h81, vcInit]
          rw [if_pos (by simp)]
        refine ⟨j, n, ?_, he⟩
        simp only [vcLoop1, hstep]
        exact vcLoop1_no_update fuzzScore cl rest (j + 1)
          ⟨some n, 81, some .locationToName, some j⟩
          (fun i m hi hm => hall (i + 1) m (by simpa using hi) hm)
      · have hstep : vcStep1 fuzzScore cl j n vcInit = vcInit := by
          have hle : fuzzScore cl (cleanS n) ≤ 80 := by
            have := hall 0 n rfl he
            omega
          simp only [vcStep1, if_pos he]
          rw [if_neg (by simp; omega)]
        obtain ⟨i, m, hi, hm, h81'⟩ := hex
        cases i with
        | zero =>
          injection hi with hie
          subst hie
          exact absurd h81' h81
        | succ i' =>
          simp only [vcLoop1, hstep]
          exact vcLoop1_hits_81 fuzzScore cl rest (j + 1)
            ⟨i', m, by simpa using hi, hm, h81'⟩
            (fun i2 m2 hi2 hm2 => hall (i2 + 1) m2 (by simpa using hi2) hm2)
    · have hstep : vcStep1 fuzzScore cl j n vcInit = vcInit := by
        simp only [vcStep1]
        rw [if_neg he]
      obtain ⟨i, m, hi, hm, h81'⟩ := hex
      cases i with
      | zero =>
        injection hi with hie
        subst hie
        exact absurd hm he
      | succ i' =>
        simp only [vcLoop1, hstep]
        exact vcLoop1_hits_81 fuzzScore cl rest (j + 1)
          ⟨i', m, by simpa using hi, hm, h81'⟩
          (fun i2 m2 hi2 hm2 => hall (i2 + 1) m2 (by simpa using hi2) hm2)

/-- C4: an accepted match's score always strictly exceeds its strategy's
threshold (80 for the location strategies, 85 for name-to-name), so a
candidate scoring exactly 80 is never accepted by either location strategy;
and a candidate scoring 81, when no eligible candidate scores higher, IS
accepted by location-to-name with score 81. -/
theorem processEvent_thresholds :
    (∀ (fuzzScore : String → String → Nat) (names : List String)
        (locs : List (Option String)) (location eventName : String)
        (j : Nat) (mt : MatchType) (s : Nat),
      processEvent fuzzScore names locs location eventName = some (j, mt, s) →
      (mt = .locationToName →
        80 < s ∧ ∃ n, names.get? j = some n
          ∧ s = fuzzScore (cleanS location) (cleanS n))
      ∧ (mt = .locationToLocation →
        80 < s ∧ ∃ n l, (names.zip locs).get? j = some (n, some l)
          ∧ s = fuzzScore (cleanS location) (cleanS l))
      ∧ (mt = .nameToName →
        85 < s ∧ ∃ n, names.get? j = some n
          ∧ s = fuzzScore (cleanS eventName) (cleanS n)))
    ∧ (∀ (fuzzScore : String → String → Nat) (names : List String)
        (locs : List (Option String)) (location eventName : String),
      location.data.isEmpty = false →
      (∃ i n, names.get? i = some n ∧ nameEligible (cleanS n) = true
        ∧ fuzzScore (cleanS location) (cleanS n) = 81) →
      (∀ i n, names.get? i = some n → nameEligible (cleanS n) = true →
        fuzzScore (cleanS location) (cleanS n) ≤ 81) →
      ∃ j, processEvent fuzzScore names locs location eventName
          = some (j, .locationToName, 81)) := by
  refine ⟨processEvent_sound, ?_⟩
  intro fuzzScore names locs location eventName hloc hex hall
  obtain ⟨j', n', hst1, he'⟩ :=
    vcLoop1_hits_81 fuzzScore (cleanS location) names 0 hex hall
  refine ⟨j', ?_⟩
  simp only [processEvent, hloc, Bool.false_eq_true, if_false]
  rw [hst1]
  have hne := orig_nonempty_of_eligible n' he'
  simp [strTruthy, hne]

/-- Witness for C4: with a scorer pinned to 90 the accepted location-to-name
match satisfies the soundness facts, and with a scorer pinned to exactly 81
the single eligible venue is accepted at 81. -/
theorem processEvent_thresholds_witness :
    (80 < 90 ∧ ∃ n, (["The Gin Joint"] : List String).get? 0 = some n
        ∧ 90 = constScore 90 (cleanS "Somewhere") (cleanS n))
    ∧ ∃ j, processEvent (constScore 81) ["The Gin Joint"] [none] "Somewhere" "X"
        = some (j, .locationToName, 81) :=
  ⟨(processEvent_thresholds.1 (constScore 90) ["The Gin Joint"] [none] "Somewhere" "X"
      0 .locationToName 90 (by decide)).1 rfl,
   processEvent_thresholds.2 (constScore 81) ["The Gin Joint"] [none] "Somewhere" "X"
      (by decide)
      ⟨0, "The Gin Joint", by decide, by decide, by decide⟩
      (fun _ _ _ _ => Nat.le_refl 81)⟩

end Charleston
